import Mathlib

/-
Verification of the marshal consumer-coordination library.

Shallow embedding of the two source files of the repository
(src/marshal/consumer.go and the companion claim file): the per-partition
claim lifecycle (release, heartbeat, health check, message pump, offset
refresh, velocity estimator) and the per-topic consumer (assignment loop,
claim sweep, health sweep shedding, message multiplexing).

Machine int64 values are modelled as Int (no arithmetic here can overflow
for in-range inputs: the velocity estimator subtracts two positive int64
values and counts list elements; all other operations are comparisons,
assignments and increments of small counters). Channels are FIFO lists,
the atomic claimed flag is a Bool, and concurrent histories are linearized
into explicit call sequences. Marshaler and broker calls are oracles passed
in as parameters. Go float64 division in the velocity estimator is modelled
as exact rational division; the properties proved about it (zero results,
the max-min-over-count formula) are exact in both.
-/

namespace Marshal

/-- A Kafka message, reduced to the fields the consumer code reads:
partition, offset and payload value. -/
structure Msg where
  partition : Nat
  offset : Int
  value : Int
deriving DecidableEq

/-- State of the claim type in the companion claim file: the atomic
claimed flag, heartbeat clock, health counter, the three offsets, the two
velocity history rings and the message channel. The read-only topic and
partID fields are omitted (never branched on). -/
structure ClaimState where
  claimed : Bool
  lastHeartbeat : Int
  cyclesBehind : Int
  offsetCurrent : Int
  offsetEarliest : Int
  offsetLatest : Int
  offsetCurrentHistory : List Int
  offsetLatestHistory : List Int
  messages : List Msg
deriving DecidableEq

/-- State of the consumerClaim struct of src/marshal/consumer.go. -/
structure ConsumerClaimRec where
  partID : Nat
  claimed : Bool
  lastHeartbeat : Int
  cyclesBehind : Int
  offsetCurrent : Int
  offsetEarliest : Int
  offsetLatest : Int
  startOffset : Int
  startTime : Int
  messages : List Msg
deriving DecidableEq

/-! ## Velocity estimator (function average of the claim file) -/

/-- The loop body of average: scan the samples keeping running min, max and
count, skipping non-positive samples, with 0 as the uninitialized sentinel
for min and max (exactly the Go loop). -/
def avgLoop : List Int → Int → Int → Int → Int × Int × Int
  | [], mn, mx, ct => (mn, mx, ct)
  | v :: rest, mn, mx, ct =>
    if v ≤ 0 then avgLoop rest mn mx ct
    else
      avgLoop rest (if mn = 0 ∨ v < mn then v else mn)
        (if mx = 0 ∨ v > mx then v else mx) (ct + 1)

/-- average returns the average of a given slice of int64s, ignoring
non-positive ("uninitialized") elements: (max - min) / count over the
valid samples, 0 when there are none. Direct translation of the Go
function; float64 division becomes exact rational division. -/
def average (vals : List Int) : Rat :=
  if (avgLoop vals 0 0 0).2.2 = 0 then 0
  else (((avgLoop vals 0 0 0).2.1 - (avgLoop vals 0 0 0).1 : Int) : Rat) /
    (((avgLoop vals 0 0 0).2.2 : Int) : Rat)

/-- Spec-side description of the samples the estimator is supposed to use:
the positive ones. -/
def validSamples (vals : List Int) : List Int :=
  vals.filter (fun v => 0 < v)

theorem validSamples_cons_pos {v : Int} (rest : List Int) (hv : 0 < v) :
    validSamples (v :: rest) = v :: validSamples rest := by
  simp [validSamples, List.filter_cons, hv]

theorem validSamples_cons_nonpos {v : Int} (rest : List Int) (hv : v ≤ 0) :
    validSamples (v :: rest) = validSamples rest := by
  have : ¬ (0 < v) := by omega
  simp [validSamples, List.filter_cons, this]

/-- Once min and max hold positive values, the loop computes fold-min,
fold-max and the count of the remaining valid samples. -/
theorem avgLoop_pos (vals : List Int) :
    ∀ mn mx ct : Int, 0 < mn → 0 < mx →
    avgLoop vals mn mx ct =
      ((validSamples vals).foldl min mn, (validSamples vals).foldl max mx,
        ct + (validSamples vals).length) := by
  induction vals with
  | nil => intro mn mx ct hmn hmx; simp [avgLoop, validSamples]
  | cons v rest ih =>
    intro mn mx ct hmn hmx
    by_cases hv : v ≤ 0
    · rw [validSamples_cons_nonpos rest hv]
      simp only [avgLoop, if_pos hv]
      exact ih mn mx ct hmn hmx
    · have hv' : 0 < v := by omega
      rw [validSamples_cons_pos rest hv']
      simp only [avgLoop, if_neg hv]
      have hmn0 : mn ≠ 0 := by omega
      have hmx0 : mx ≠ 0 := by omega
      have emn : (if mn = 0 ∨ v < mn then v else mn) = min mn v := by
        rcases lt_or_le v mn with h | h
        · rw [if_pos (Or.inr h), min_eq_right (le_of_lt h)]
        · rw [if_neg (by push_neg; exact ⟨hmn0, h⟩), min_eq_left h]
      have emx : (if mx = 0 ∨ v > mx then v else mx) = max mx v := by
        rcases lt_or_le mx v with h | h
        · rw [if_pos (Or.inr h), max_eq_right (le_of_lt h)]
        · rw [if_neg (by push_neg; exact ⟨hmx0, h⟩), max_eq_left h]
      rw [emn, emx,
        ih (min mn v) (max mx v) (ct + 1) (lt_min hmn hv')
          (lt_of_lt_of_le hmx (le_max_left mx v))]
      simp only [List.foldl_cons, List.length_cons, Prod.mk.injEq, true_and]
      push_cast
      ring

/-- From the sentinel start, the loop result is determined by the list of
valid samples: empty gives the zero triple, otherwise fold-min, fold-max
and the count seeded by the first valid sample. -/
theorem avgLoop_start (vals : List Int) :
    (validSamples vals = [] → avgLoop vals 0 0 0 = (0, 0, 0)) ∧
    (∀ v vs, validSamples vals = v :: vs →
      avgLoop vals 0 0 0 = (vs.foldl min v, vs.foldl max v, 1 + (vs.length : Int))) := by
  induction vals with
  | nil => exact ⟨fun _ => rfl, fun v vs h => by simp [validSamples] at h⟩
  | cons u rest ih =>
    by_cases hu : u ≤ 0
    · rw [validSamples_cons_nonpos rest hu]
      simpa only [avgLoop, if_pos hu] using ih
    · have hu' : 0 < u := by omega
      rw [validSamples_cons_pos rest hu']
      constructor
      · intro h; exact absurd h (by simp)
      · intro v vs h
        injection h with hv hvs
        subst hv
        subst hvs
        simp only [avgLoop, if_neg hu, eq_self_iff_true, true_or, if_true]
        rw [avgLoop_pos rest u u (0 + 1) hu' hu']
        simp only [Prod.mk.injEq, true_and]
        push_cast
        ring

/-- For a list all of whose members equal a, folding min from a gives a. -/
theorem foldl_min_const (l : List Int) (a : Int) (h : ∀ w ∈ l, w = a) :
    l.foldl min a = a := by
  induction l with
  | nil => rfl
  | cons x xs ih =>
    have hx : x = a := h x (by simp)
    simp only [List.foldl_cons, hx, min_self]
    exact ih (fun w hw => h w (by simp [hw]))

/-- For a list all of whose members equal a, folding max from a gives a. -/
theorem foldl_max_const (l : List Int) (a : Int) (h : ∀ w ∈ l, w = a) :
    l.foldl max a = a := by
  induction l with
  | nil => rfl
  | cons x xs ih =>
    have hx : x = a := h x (by simp)
    simp only [List.foldl_cons, hx, max_self]
    exact ih (fun w hw => h w (by simp [hw]))

/-- Claim C5: the velocity estimator ignores non-positive samples and
returns (max - min) / count over the positive samples; it returns 0 when
there are no positive samples, 0 for exactly one positive sample, and 0
whenever all positive samples are equal. -/
theorem average_spec (vals : List Int) :
    (validSamples vals = [] → average vals = 0) ∧
    (∀ v, validSamples vals = [v] → average vals = 0) ∧
    (∀ v vs, validSamples vals = v :: vs → (∀ w ∈ v :: vs, w = v) →
      average vals = 0) ∧
    (∀ v vs, validSamples vals = v :: vs →
      average vals =
        ((vs.foldl max v - vs.foldl min v : Int) : Rat) /
          ((1 + (vs.length : Int)) : Rat)) := by
  obtain ⟨hnil, hcons⟩ := avgLoop_start vals
  have main : ∀ v vs, validSamples vals = v :: vs →
      average vals =
        ((vs.foldl max v - vs.foldl min v : Int) : Rat) /
          ((1 + (vs.length : Int)) : Rat) := by
    intro v vs h
    have h3 := hcons v vs h
    have hmn : (avgLoop vals 0 0 0).1 = vs.foldl min v := by rw [h3]
    have hmx : (avgLoop vals 0 0 0).2.1 = vs.foldl max v := by rw [h3]
    have hct : (avgLoop vals 0 0 0).2.2 = 1 + (vs.length : Int) := by rw [h3]
    have hne : (1 + (vs.length : Int)) ≠ 0 := by
      have : (0 : Int) ≤ vs.length := Int.natCast_nonneg _
      omega
    unfold average
    rw [hmn, hmx, hct, if_neg hne]
    norm_cast
  refine ⟨?_, ?_, ?_, main⟩
  · intro h
    have h3 := hnil h
    have hct : (avgLoop vals 0 0 0).2.2 = 0 := by rw [h3]
    unfold average
    rw [hct]
    simp
  · intro v h
    rw [main v [] h]
    simp
  · intro v vs h hall
    rw [main v vs h]
    have hmin : vs.foldl min v = v :=
      foldl_min_const vs v (fun w hw => hall w (by simp [hw]))
    have hmax : vs.foldl max v = v :=
      foldl_max_const vs v (fun w hw => hall w (by simp [hw]))
    rw [hmin, hmax]
    simp

/-- Witness for C5 at concrete inputs: samples with zeros and a negative
entry, all valid samples equal, give velocity 0. -/
theorem average_spec_witness :
    validSamples [0, 5, -3, 5] = [5, 5] ∧ average [0, 5, -3, 5] = 0 :=
  ⟨by decide,
    (average_spec [0, 5, -3, 5]).2.2.1 5 [5] (by decide) (by decide)⟩

/-! ## Claim release (method Release of the claim file) -/

/-- Observable outcome of one Release call: its boolean return, the state
after it, and whether marshaler.ReleasePartition was invoked. -/
structure ReleaseOut where
  ret : Bool
  state : ClaimState
  releasePartitionCalled : Bool
deriving DecidableEq

/-- claim.Release: compare-and-swap the claimed flag from active to
released; if the swap fails (already released) return false without
calling the marshaler; otherwise invoke marshaler.ReleasePartition with
the current offset and return false exactly when that call errors. -/
def claimRelease (s : ClaimState) (marshalOk : Bool) : ReleaseOut :=
  if s.claimed then
    { ret := marshalOk, state := { s with claimed := false },
      releasePartitionCalled := true }
  else
    { ret := false, state := s, releasePartitionCalled := false }

/-- A linearized sequence of Release calls on one claim instance (the
compare-and-swap makes concurrent calls take effect in some order): counts
the marshaler ReleasePartition invocations along the trace. -/
def releaseTrace (s : ClaimState) : List Bool → Nat
  | [] => 0
  | ok :: rest =>
    (if (claimRelease s ok).releasePartitionCalled then 1 else 0) +
      releaseTrace (claimRelease s ok).state rest

theorem releaseTrace_unclaimed (oks : List Bool) :
    ∀ s : ClaimState, s.claimed = false → releaseTrace s oks = 0 := by
  induction oks with
  | nil => intro s h; rfl
  | cons ok rest ih =>
    intro s h
    simp only [releaseTrace, claimRelease, h]
    simpa using ih s h

/-- Claim C2: Release transitions the claimed flag from active to released
via compare-and-swap and returns false without any marshaler call when the
flag was already released; across any sequence of Release calls on one
claim instance, ReleasePartition is invoked at most once through the
Release path; and Release returns false on a marshaler error. -/
theorem release_at_most_once (s : ClaimState) (oks : List Bool) (ok : Bool) :
    releaseTrace s oks ≤ 1 ∧
    (s.claimed = false → claimRelease s ok =
      { ret := false, state := s, releasePartitionCalled := false }) ∧
    (s.claimed = true → (claimRelease s ok).state.claimed = false) ∧
    (ok = false → (claimRelease s ok).ret = false) := by
  refine ⟨?_, ?_, ?_, ?_⟩
  · cases oks with
    | nil => simp [releaseTrace]
    | cons ok0 rest =>
      cases hc : s.claimed
      · rw [releaseTrace_unclaimed (ok0 :: rest) s hc]
        omega
      · simp only [releaseTrace, claimRelease, hc, if_true]
        rw [releaseTrace_unclaimed rest { s with claimed := false } rfl]
  · intro h
    simp [claimRelease, h]
  · intro h
    simp [claimRelease, h]
  · intro h
    cases hc : s.claimed <;> simp [claimRelease, hc, h]

/-- A sample claimed state, used by witnesses: offsets as in the unhealthy
release scenario of the specification. -/
def sampleClaim : ClaimState :=
  { claimed := true, lastHeartbeat := 50, cyclesBehind := 0,
    offsetCurrent := 7, offsetEarliest := 0, offsetLatest := 20,
    offsetCurrentHistory := [1, 2, 3, 4, 5, 5, 5, 5, 5, 5],
    offsetLatestHistory := [10, 20, 30, 40, 50, 60, 70, 80, 90, 100],
    messages := [] }

/-- An already-released sample state. -/
def sampleReleased : ClaimState :=
  { sampleClaim with claimed := false }

/-- Witness for C2: a trace of three Release calls on a claimed instance,
the first with a failing marshaler, invokes ReleasePartition at most once;
and a Release on an already-released instance returns false untouched. -/
theorem release_at_most_once_witness :
    releaseTrace sampleClaim [false, true, true] ≤ 1 ∧
    claimRelease sampleReleased true =
      { ret := false, state := sampleReleased, releasePartitionCalled := false } :=
  ⟨(release_at_most_once sampleClaim [false, true, true] true).1,
    (release_at_most_once sampleReleased [] true).2.1 rfl⟩

/-! ## Claim heartbeat (method heartbeat of the claim file) -/

/-- Observable outcome of one internal heartbeat call: the state after it,
the offset passed to marshaler.Heartbeat, and whether a Release was
spawned. -/
structure HeartbeatOut where
  state : ClaimState
  marshalOffsetArg : Int
  releaseScheduled : Bool
deriving DecidableEq

/-- claim.heartbeat: under the write lock, call marshaler.Heartbeat with
the current offset; if it fails, spawn a Release. The assignment of
lastHeartbeat to now follows unconditionally in the source (it is not
guarded by the error check), so it happens on failure as well. -/
def claimHeartbeat (s : ClaimState) (marshalOk : Bool) (now : Int) : HeartbeatOut :=
  { state := { s with lastHeartbeat := now },
    marshalOffsetArg := s.offsetCurrent,
    releaseScheduled := !marshalOk }

/-- Counterexample to claim C3 as stated: with lastHeartbeat 50 and a
failing marshaler call at time 100, the heartbeat operation schedules a
release but still updates lastHeartbeat to 100. -/
theorem heartbeat_claim_refuted :
    sampleClaim.lastHeartbeat = 50 ∧
    (claimHeartbeat sampleClaim false 100).releaseScheduled = true ∧
    (claimHeartbeat sampleClaim false 100).state.lastHeartbeat = 100 :=
  ⟨rfl, rfl, rfl⟩

/-- Claim C3 amended: heartbeat calls the marshaler with the current
offsetCurrent under the write lock; if the call fails a release is
scheduled; and lastHeartbeat is set to now in all cases, failure included.
No other claim field changes. -/
theorem heartbeat_spec (s : ClaimState) (ok : Bool) (now : Int) :
    (claimHeartbeat s ok now).marshalOffsetArg = s.offsetCurrent ∧
    (claimHeartbeat s ok now).state.lastHeartbeat = now ∧
    ((claimHeartbeat s ok now).releaseScheduled = true ↔ ok = false) ∧
    (claimHeartbeat s ok now).state.offsetCurrent = s.offsetCurrent ∧
    (claimHeartbeat s ok now).state.claimed = s.claimed ∧
    (claimHeartbeat s ok now).state.cyclesBehind = s.cyclesBehind := by
  cases ok <;> simp [claimHeartbeat]

/-- Witness for C3 amended: at a successful concrete call the clock is set
and no release is scheduled. -/
theorem heartbeat_spec_witness :
    (claimHeartbeat sampleClaim true 60).state.lastHeartbeat = 60 ∧
    (claimHeartbeat sampleClaim true 60).marshalOffsetArg = 7 :=
  ⟨(heartbeat_spec sampleClaim true 60).2.1,
    (heartbeat_spec sampleClaim true 60).1⟩

/-! ## Claim health check (method healthCheck of the claim file) -/

/-- Observable outcome of one health check: the state after it, its
boolean result, and whether a Release was spawned. -/
structure HealthCheckOut where
  state : ClaimState
  healthy : Bool
  releaseScheduled : Bool
deriving DecidableEq

/-- ConsumerVelocity: the velocity estimator on the offsetCurrent history
ring (read under the read lock in the source). -/
def ConsumerVelocity (s : ClaimState) : Rat := average s.offsetCurrentHistory

/-- PartitionVelocity: the velocity estimator on the offsetLatest history
ring. -/
def PartitionVelocity (s : ClaimState) : Rat := average s.offsetLatestHistory

/-- claim.healthCheck, branch for branch: velocities are computed first;
then under the write lock the expired-heartbeat test, the caught-up test,
the velocity test, and finally the cyclesBehind increment with release at
threshold 3. -/
def healthCheck (s : ClaimState) (now hbInterval : Int) : HealthCheckOut :=
  if s.lastHeartbeat < now - hbInterval then
    { state := s, healthy := false, releaseScheduled := true }
  else if s.offsetLatest ≤ s.offsetCurrent then
    { state := { s with cyclesBehind := 0 }, healthy := true,
      releaseScheduled := false }
  else if PartitionVelocity s ≤ ConsumerVelocity s then
    { state := { s with cyclesBehind := 0 }, healthy := true,
      releaseScheduled := false }
  else if 3 ≤ s.cyclesBehind + 1 then
    { state := { s with cyclesBehind := s.cyclesBehind + 1 }, healthy := false,
      releaseScheduled := true }
  else
    { state := { s with cyclesBehind := s.cyclesBehind + 1 }, healthy := true,
      releaseScheduled := false }

/-- Claim C4: a single health check evaluates in order: an expired
heartbeat gives unhealthy with a scheduled release regardless of
velocities and leaves the state untouched; else being caught up resets
cyclesBehind and is healthy; else keeping pace (partition velocity at most
consumer velocity) resets cyclesBehind and is healthy; otherwise
cyclesBehind is incremented, and the check is unhealthy with a scheduled
release exactly when the incremented count reaches 3, healthy with no
release otherwise. -/
theorem healthCheck_spec (s : ClaimState) (now hbInterval : Int) :
    (s.lastHeartbeat < now - hbInterval →
      (healthCheck s now hbInterval).healthy = false ∧
      (healthCheck s now hbInterval).releaseScheduled = true ∧
      (healthCheck s now hbInterval).state = s) ∧
    (now - hbInterval ≤ s.lastHeartbeat → s.offsetLatest ≤ s.offsetCurrent →
      (healthCheck s now hbInterval).healthy = true ∧
      (healthCheck s now hbInterval).releaseScheduled = false ∧
      (healthCheck s now hbInterval).state.cyclesBehind = 0) ∧
    (now - hbInterval ≤ s.lastHeartbeat → s.offsetCurrent < s.offsetLatest →
      PartitionVelocity s ≤ ConsumerVelocity s →
      (healthCheck s now hbInterval).healthy = true ∧
      (healthCheck s now hbInterval).releaseScheduled = false ∧
      (healthCheck s now hbInterval).state.cyclesBehind = 0) ∧
    (now - hbInterval ≤ s.lastHeartbeat → s.offsetCurrent < s.offsetLatest →
      ConsumerVelocity s < PartitionVelocity s →
      (healthCheck s now hbInterval).state.cyclesBehind = s.cyclesBehind + 1 ∧
      (3 ≤ s.cyclesBehind + 1 →
        (healthCheck s now hbInterval).healthy = false ∧
        (healthCheck s now hbInterval).releaseScheduled = true) ∧
      (s.cyclesBehind + 1 < 3 →
        (healthCheck s now hbInterval).healthy = true ∧
        (healthCheck s now hbInterval).releaseScheduled = false)) := by
  refine ⟨?_, ?_, ?_, ?_⟩
  · intro h1
    unfold healthCheck
    rw [if_pos h1]
    exact ⟨rfl, rfl, rfl⟩
  · intro h1 h2
    unfold healthCheck
    rw [if_neg (by omega), if_pos h2]
    exact ⟨rfl, rfl, rfl⟩
  · intro h1 h2 h3
    unfold healthCheck
    rw [if_neg (by omega), if_neg (not_le.mpr h2), if_pos h3]
    exact ⟨rfl, rfl, rfl⟩
  · intro h1 h2 h3
    unfold healthCheck
    rw [if_neg (by omega), if_neg (not_le.mpr h2), if_neg (not_le.mpr h3)]
    by_cases hcb : 3 ≤ s.cyclesBehind + 1
    · rw [if_pos hcb]
      exact ⟨rfl, fun _ => ⟨rfl, rfl⟩, fun hlt => absurd hcb (by omega)⟩
    · rw [if_neg hcb]
      exact ⟨rfl, fun hge => absurd hge hcb, fun _ => ⟨rfl, rfl⟩⟩

/-- Witness for C4 at the unhealthy-velocity scenario inputs of the
specification: heartbeat fresh, behind, partition faster than consumer,
cyclesBehind goes from 0 to 1 and the claim stays healthy. -/
theorem healthCheck_spec_witness :
    (healthCheck sampleClaim 51 10).state.cyclesBehind = 1 ∧
    (healthCheck sampleClaim 51 10).healthy = true ∧
    (healthCheck sampleClaim 51 10).releaseScheduled = false := by
  have hv : ConsumerVelocity sampleClaim < PartitionVelocity sampleClaim := by
    have h1 : ConsumerVelocity sampleClaim = (4 : Rat) / 10 := by
      norm_num [ConsumerVelocity, sampleClaim, average, avgLoop]
    have h2 : PartitionVelocity sampleClaim = (90 : Rat) / 10 := by
      norm_num [PartitionVelocity, sampleClaim, average, avgLoop]
    rw [h1, h2]
    norm_num
  have h := (healthCheck_spec sampleClaim 51 10).2.2.2 (by decide) (by decide) hv
  have h2 := h.2.2 (by decide)
  exact ⟨h.1, h2.1, h2.2⟩

/-! ## Message pumps (claim file and consumer.go) -/

/-- Result of one broker consume call. -/
inductive ConsumeResult where
  | msg (m : Msg)
  | outOfRange
  | otherErr
deriving DecidableEq

/-- Observable outcome of one pump iteration: the state after it, whether
the loop exits, whether a Release was spawned, and whether it sleeps one
second before retrying. -/
structure PumpOut (σ : Type) where
  state : σ
  exits : Bool
  spawnsRelease : Bool
  sleepsOneSecond : Bool
deriving DecidableEq

/-- messagePump of the claim file, one iteration: exit when no longer
claimed; on out-of-range spawn a Release asynchronously and exit; on any
other error sleep one second and retry; on a message push it into the
channel. Touches nothing else. -/
def claimMessagePump (s : ClaimState) (r : ConsumeResult) : PumpOut ClaimState :=
  if s.claimed = false then
    { state := s, exits := true, spawnsRelease := false, sleepsOneSecond := false }
  else
    match r with
    | ConsumeResult.outOfRange =>
      { state := s, exits := true, spawnsRelease := true, sleepsOneSecond := false }
    | ConsumeResult.otherErr =>
      { state := s, exits := false, spawnsRelease := false, sleepsOneSecond := true }
    | ConsumeResult.msg m =>
      { state := { s with messages := s.messages ++ [m] }, exits := false,
        spawnsRelease := false, sleepsOneSecond := false }

/-- messagePump of src/marshal/consumer.go, one iteration: identical
except that on out-of-range it stores released directly into the atomic
flag and exits; no Release operation is involved. -/
def consumerMessagePump (s : ConsumerClaimRec) (r : ConsumeResult) :
    PumpOut ConsumerClaimRec :=
  if s.claimed = false then
    { state := s, exits := true, spawnsRelease := false, sleepsOneSecond := false }
  else
    match r with
    | ConsumeResult.outOfRange =>
      { state := { s with claimed := false }, exits := true, spawnsRelease := false,
        sleepsOneSecond := false }
    | ConsumeResult.otherErr =>
      { state := s, exits := false, spawnsRelease := false, sleepsOneSecond := true }
    | ConsumeResult.msg m =>
      { state := { s with messages := s.messages ++ [m] }, exits := false,
        spawnsRelease := false, sleepsOneSecond := false }

/-- A sample consumerClaim record used by witnesses. -/
def sampleConsumerClaim : ConsumerClaimRec :=
  { partID := 0, claimed := true, lastHeartbeat := 50, cyclesBehind := 0,
    offsetCurrent := 7, offsetEarliest := 0, offsetLatest := 20,
    startOffset := 0, startTime := 40, messages := [] }

/-- Counterexample to claim C6 as stated: in the consumer.go message pump,
out-of-range on a claimed partition exits after storing released directly
into the claimed flag; no Release operation is spawned, so the release is
not effected through the Release path. -/
theorem messagePump_claim_refuted :
    sampleConsumerClaim.claimed = true ∧
    (consumerMessagePump sampleConsumerClaim ConsumeResult.outOfRange).exits = true ∧
    (consumerMessagePump sampleConsumerClaim ConsumeResult.outOfRange).spawnsRelease
      = false ∧
    (consumerMessagePump sampleConsumerClaim ConsumeResult.outOfRange).state.claimed
      = false :=
  ⟨rfl, rfl, rfl, rfl⟩

/-- Claim C6 amended: on out-of-range the claim-file pump spawns a Release
asynchronously and exits with the state untouched, while the consumer.go
pump instead stores released into the atomic flag and exits, leaving the
marshaler release to the health sweep; in both pumps any other error
sleeps one second and retries, releasing nothing and modifying no claim
field. -/
theorem messagePump_spec (s : ClaimState) (t : ConsumerClaimRec) :
    (s.claimed = true →
      claimMessagePump s ConsumeResult.outOfRange =
        { state := s, exits := true, spawnsRelease := true,
          sleepsOneSecond := false }) ∧
    (s.claimed = true →
      claimMessagePump s ConsumeResult.otherErr =
        { state := s, exits := false, spawnsRelease := false,
          sleepsOneSecond := true }) ∧
    (t.claimed = true →
      consumerMessagePump t ConsumeResult.outOfRange =
        { state := { t with claimed := false }, exits := true,
          spawnsRelease := false, sleepsOneSecond := false }) ∧
    (t.claimed = true →
      consumerMessagePump t ConsumeResult.otherErr =
        { state := t, exits := false, spawnsRelease := false,
          sleepsOneSecond := true }) := by
  refine ⟨fun h => ?_, fun h => ?_, fun h => ?_, fun h => ?_⟩ <;>
    simp [claimMessagePump, consumerMessagePump, h]

/-- Witness for C6 amended at concrete states: the claim-file pump spawns
a Release on out-of-range; the consumer.go pump sleeps and retries on a
transient error. -/
theorem messagePump_spec_witness :
    claimMessagePump sampleClaim ConsumeResult.outOfRange =
      { state := sampleClaim, exits := true, spawnsRelease := true,
        sleepsOneSecond := false } ∧
    consumerMessagePump sampleConsumerClaim ConsumeResult.otherErr =
      { state := sampleConsumerClaim, exits := false, spawnsRelease := false,
        sleepsOneSecond := true } :=
  ⟨(messagePump_spec sampleClaim sampleConsumerClaim).1 rfl,
    (messagePump_spec sampleClaim sampleConsumerClaim).2.2.2 rfl⟩

/-! ## Offset refresh (updateOffsets in both files) -/

/-- updateOffsets of the claim file: fetch earliest and latest (a failure
returns the error, changing nothing); on success, under the write lock set
offsetEarliest and offsetLatest and write the history rings at index
ctr mod 10; offsetCurrent is untouched. -/
def claimUpdateOffsets (s : ClaimState) (ctr : Nat)
    (fetch : Option (Int × Int)) : ClaimState × Bool :=
  match fetch with
  | none => (s, false)
  | some (oEarly, oLate) =>
    ({ s with
        offsetEarliest := oEarly,
        offsetLatest := oLate,
        offsetLatestHistory := s.offsetLatestHistory.set (ctr % 10) oLate,
        offsetCurrentHistory :=
          s.offsetCurrentHistory.set (ctr % 10) s.offsetCurrent },
      true)

/-- updateOffsets of src/marshal/consumer.go: walk the claims in order,
fetching offsets per partition and mutating earliest and latest in place;
on the first fetch error stop and return the error, leaving the failed
claim and all later ones untouched. -/
def consumerUpdateOffsets (fetch : Nat → Option (Int × Int)) :
    List ConsumerClaimRec → List ConsumerClaimRec × Bool
  | [] => ([], true)
  | c :: rest =>
    match fetch c.partID with
    | none => (c :: rest, false)
    | some (oEarly, oLate) =>
      ({ c with offsetEarliest := oEarly, offsetLatest := oLate } ::
          (consumerUpdateOffsets fetch rest).1,
        (consumerUpdateOffsets fetch rest).2)

/-- Spec-side description of what the consumer-level sweep does to one
claim whose fetch succeeds: set offsetEarliest and offsetLatest to the
fetched values, touching nothing else (a failed fetch leaves it as is). -/
def refreshClaim (fetch : Nat → Option (Int × Int))
    (c : ConsumerClaimRec) : ConsumerClaimRec :=
  match fetch c.partID with
  | none => c
  | some (oEarly, oLate) =>
    { c with offsetEarliest := oEarly, offsetLatest := oLate }

/-- When every fetch succeeds, the consumer-level sweep updates every
claim in place with its fetched values and reports success. -/
theorem consumerUpdateOffsets_all_ok (fetch : Nat → Option (Int × Int)) :
    ∀ cls : List ConsumerClaimRec, (∀ c ∈ cls, fetch c.partID ≠ none) →
      consumerUpdateOffsets fetch cls = (cls.map (refreshClaim fetch), true) := by
  intro cls
  induction cls with
  | nil => intro h; rfl
  | cons c rest ih =>
    intro h
    have hc := h c (by simp)
    cases hf : fetch c.partID with
    | none => exact absurd hf hc
    | some pair =>
      obtain ⟨oE, oL⟩ := pair
      have hrest := ih (fun d hd => h d (by simp [hd]))
      simp only [consumerUpdateOffsets, hf, hrest, List.map_cons]
      simp [refreshClaim, hf]

/-- At the first fetch failure, the consumer-level sweep stops with an
error: the claims before it carry their fetched values, the affected
claim and all later ones are untouched. -/
theorem consumerUpdateOffsets_first_fail (fetch : Nat → Option (Int × Int)) :
    ∀ (pre : List ConsumerClaimRec) (c : ConsumerClaimRec)
      (post : List ConsumerClaimRec),
      (∀ d ∈ pre, fetch d.partID ≠ none) → fetch c.partID = none →
      consumerUpdateOffsets fetch (pre ++ c :: post) =
        (pre.map (refreshClaim fetch) ++ c :: post, false) := by
  intro pre
  induction pre with
  | nil =>
    intro c post hpre hc
    simp only [List.nil_append, List.map_nil]
    simp [consumerUpdateOffsets, hc]
  | cons d pre2 ih =>
    intro c post hpre hc
    have hd := hpre d (by simp)
    cases hf : fetch d.partID with
    | none => exact absurd hf hd
    | some pair =>
      obtain ⟨oE, oL⟩ := pair
      have hrec := ih c post (fun x hx => hpre x (by simp [hx])) hc
      simp only [List.cons_append, consumerUpdateOffsets, hf, hrec, List.map_cons]
      simp [refreshClaim, hf, hrec]

/-- Claim C8: every periodic offset refresh (the consumer-level sweep and
the claim-level tick) updates offsetEarliest and offsetLatest from the
fetched values and leaves offsetCurrent unchanged; a fetch error leaves
all offset fields of the affected claim unchanged and does not release
it. For the consumer-level sweep: refreshClaim carries exactly the
fetched earliest and latest and preserves everything else; a sweep whose
fetches all succeed maps refreshClaim over every claim; a sweep hitting a
fetch failure updates the claims before it and leaves the affected claim
and all later ones untouched. -/
theorem updateOffsets_spec (s : ClaimState) (ctr : Nat) (oEarly oLate : Int)
    (fetch : Nat → Option (Int × Int)) (cls : List ConsumerClaimRec) :
    (claimUpdateOffsets s ctr (some (oEarly, oLate))).1.offsetEarliest = oEarly ∧
    (claimUpdateOffsets s ctr (some (oEarly, oLate))).1.offsetLatest = oLate ∧
    (claimUpdateOffsets s ctr (some (oEarly, oLate))).1.offsetCurrent
      = s.offsetCurrent ∧
    (claimUpdateOffsets s ctr (some (oEarly, oLate))).1.claimed = s.claimed ∧
    claimUpdateOffsets s ctr none = (s, false) ∧
    (∀ c : ConsumerClaimRec,
      (refreshClaim fetch c).partID = c.partID ∧
      (refreshClaim fetch c).offsetCurrent = c.offsetCurrent ∧
      (refreshClaim fetch c).claimed = c.claimed ∧
      (∀ e l, fetch c.partID = some (e, l) →
        (refreshClaim fetch c).offsetEarliest = e ∧
        (refreshClaim fetch c).offsetLatest = l) ∧
      (fetch c.partID = none → refreshClaim fetch c = c)) ∧
    ((∀ c ∈ cls, fetch c.partID ≠ none) →
      consumerUpdateOffsets fetch cls = (cls.map (refreshClaim fetch), true)) ∧
    (∀ pre c post, cls = pre ++ c :: post →
      (∀ d ∈ pre, fetch d.partID ≠ none) → fetch c.partID = none →
      consumerUpdateOffsets fetch cls =
        (pre.map (refreshClaim fetch) ++ c :: post, false)) := by
  refine ⟨rfl, rfl, rfl, rfl, rfl, ?_, consumerUpdateOffsets_all_ok fetch cls, ?_⟩
  · intro c
    cases hf : fetch c.partID with
    | none =>
      have hrc : refreshClaim fetch c = c := by simp [refreshClaim, hf]
      refine ⟨by rw [hrc], by rw [hrc], by rw [hrc], ?_, fun _ => hrc⟩
      intro e l he
      exact absurd he (by simp)
    | some pair =>
      obtain ⟨e0, l0⟩ := pair
      have hrc : refreshClaim fetch c =
          { c with offsetEarliest := e0, offsetLatest := l0 } := by
        simp [refreshClaim, hf]
      refine ⟨by rw [hrc], by rw [hrc], by rw [hrc], ?_, ?_⟩
      · intro e l he
        rw [Option.some.injEq, Prod.mk.injEq] at he
        obtain ⟨he1, he2⟩ := he
        subst he1
        subst he2
        rw [hrc]
        exact ⟨rfl, rfl⟩
      · intro hn
        exact absurd hn (by simp)
  · intro pre c post hcls hpre hc
    subst hcls
    exact consumerUpdateOffsets_first_fail fetch pre c post hpre hc

/-- Fetch oracle for the refresh witness: partition 0 succeeds with
offsets (2, 30), every other partition fails. -/
def fetchSample : Nat → Option (Int × Int) :=
  fun p => if p = 0 then some (2, 30) else none

/-- Claim record on partition 0 for the offset-refresh witness. -/
def refreshRecA : ConsumerClaimRec := { sampleConsumerClaim with partID := 0 }

/-- Claim record on partition 1 for the offset-refresh witness. -/
def refreshRecB : ConsumerClaimRec := { sampleConsumerClaim with partID := 1 }

/-- Witness for C8: a sweep over partitions 0 and 1 where the fetch for 1
fails updates claim 0 with its fetched offsets and leaves claim 1
untouched, reporting the error; a sweep over partition 0 alone succeeds
updating it in place. -/
theorem updateOffsets_spec_witness :
    consumerUpdateOffsets fetchSample [refreshRecA, refreshRecB] =
      ([refreshClaim fetchSample refreshRecA, refreshRecB], false) ∧
    consumerUpdateOffsets fetchSample [refreshRecA] =
      ([refreshClaim fetchSample refreshRecA], true) :=
  ⟨(updateOffsets_spec sampleClaim 0 0 0 fetchSample
        [refreshRecA, refreshRecB]).2.2.2.2.2.2.2
      [refreshRecA] refreshRecB [] rfl (by decide) (by decide),
    (updateOffsets_spec sampleClaim 0 0 0 fetchSample [refreshRecA]).2.2.2.2.2.2.1
      (by decide)⟩

/-! ## Health sweep shedding (manageClaims of consumer.go) -/

/-- The flip-and-delete loop of the health sweep in manageClaims: walk the
unhealthy list, stopping when the release budget is exhausted; each claim
processed has its flag flipped to released and is removed from the
mapping. Returns the partitions processed. -/
def shedFlipLoop : List Nat → Nat → List Nat
  | [], _ => []
  | _ :: _, 0 => []
  | p :: rest, Nat.succ budget => p :: shedFlipLoop rest budget

/-- The shedding step of one health sweep in manageClaims, for a sweep
that found at least one unhealthy claim: claimCount is the number of
claims held at the start of the sweep and the budget is claimCount / 2;
the first loop flips and removes at most budget claims; the second loop
then invokes marshaler.ReleasePartition for every entry of the unhealthy
list. Returns the flipped-and-removed partitions and the partitions
passed to ReleasePartition. -/
def healthSweepShed (claimCount : Nat) (unhealthy : List Nat) :
    List Nat × List Nat :=
  if unhealthy.length = 0 then ([], [])
  else (shedFlipLoop unhealthy (claimCount / 2), unhealthy)

/-- Claim C1 fails on the code: with claim count 2 and both claims
unhealthy, the sweep flips and removes only 1 = floor(2/2) claim from the
mapping, yet marshaler.ReleasePartition is invoked for both unhealthy
claims, exceeding the floor(claim_count / 2) bound that the claim states
for ReleasePartition invocations. -/
theorem healthSweepShed_bug :
    healthSweepShed 2 [0, 1] = ([0], [0, 1]) ∧
    (healthSweepShed 2 [0, 1]).1.length = 2 / 2 ∧
    (healthSweepShed 2 [0, 1]).2.length = 2 ∧ 2 / 2 < 2 := by
  decide

/-! ## tryClaimPartition (consumer.go) -/

/-- Oracle environment for one tryClaimPartition call: what the marshaler
and broker return at each step. -/
structure TryClaimEnv where
  lastHeartbeatSeen : Int
  offsets : Option (Int × Int × Int)
  claimWon : Bool
  heartbeatOk : Bool
  consumerCreateOk : Bool
  now : Int
deriving DecidableEq

/-- Outcome of tryClaimPartition: the boolean result, the claims mapping
after the call (none models the cleared, terminated mapping), and whether
marshaler.Heartbeat was invoked for the partition. -/
structure TryClaimOut where
  result : Bool
  claims : Option (List ConsumerClaimRec)
  heartbeatSent : Bool
deriving DecidableEq

/-- tryClaimPartition of consumer.go, step for step: consult
GetPartitionClaim and skip if somebody heartbeated recently; fetch the
offsets; build the claim structure; race via ClaimPartition; normalize the
cursor up to earliest; send the initial heartbeat; record the start
position; create the broker consumer; finally insert into the mapping
unless the consumer was terminated in between. -/
def tryClaimPartition (env : TryClaimEnv) (partID : Nat)
    (claims : Option (List ConsumerClaimRec)) : TryClaimOut :=
  if 0 < env.lastHeartbeatSeen then
    { result := false, claims := claims, heartbeatSent := false }
  else
    match env.offsets with
    | none => { result := false, claims := claims, heartbeatSent := false }
    | some (oEarly, oLate, oCur) =>
      if env.claimWon = false then
        { result := false, claims := claims, heartbeatSent := false }
      else
        let cur := if oCur < oEarly then oEarly else oCur
        if env.heartbeatOk = false then
          { result := false, claims := claims, heartbeatSent := true }
        else
          let newClaim : ConsumerClaimRec :=
            { partID := partID, claimed := true, lastHeartbeat := env.now,
              cyclesBehind := 0, offsetCurrent := cur, offsetEarliest := oEarly,
              offsetLatest := oLate, startOffset := cur, startTime := env.now,
              messages := [] }
          if env.consumerCreateOk = false then
            { result := false, claims := claims, heartbeatSent := true }
          else
            match claims with
            | none => { result := true, claims := none, heartbeatSent := true }
            | some m =>
              { result := true, claims := some (newClaim :: m), heartbeatSent := true }

/-- Environment where every step succeeds except broker-consumer
creation. -/
def envConsumerFails : TryClaimEnv :=
  { lastHeartbeatSeen := 0, offsets := some (0, 20, 5), claimWon := true,
    heartbeatOk := true, consumerCreateOk := false, now := 50 }

/-- Counterexample to claim C7 as stated: when broker-consumer creation
fails, tryClaimPartition does return false and leaves the mapping
unchanged, but a heartbeat has already been sent (and succeeded) for the
partition, contradicting the no-heartbeat part of the claim. -/
theorem tryClaimPartition_claim_refuted :
    (tryClaimPartition envConsumerFails 2 (some [])).result = false ∧
    (tryClaimPartition envConsumerFails 2 (some [])).claims = some [] ∧
    (tryClaimPartition envConsumerFails 2 (some [])).heartbeatSent = true := by
  decide

/-- Claim C7 amended: tryClaimPartition returns false and leaves the
mapping unchanged whenever the observed claim has a positive last
heartbeat, the offsets fetch fails, ClaimPartition returns false, the
initial heartbeat fails, or broker-consumer creation fails; in the first
three of those cases no heartbeat is sent for the partition, while in the
last two a heartbeat has already been invoked. It returns true and inserts
the new claim into the mapping only when every step succeeds (insertion is
skipped when the mapping was cleared by termination). -/
theorem tryClaimPartition_spec (env : TryClaimEnv) (partID : Nat)
    (claims : Option (List ConsumerClaimRec)) :
    ((0 < env.lastHeartbeatSeen ∨ env.offsets = none ∨ env.claimWon = false ∨
        env.heartbeatOk = false ∨ env.consumerCreateOk = false) →
      (tryClaimPartition env partID claims).result = false ∧
      (tryClaimPartition env partID claims).claims = claims) ∧
    ((0 < env.lastHeartbeatSeen ∨ env.offsets = none ∨ env.claimWon = false) →
      (tryClaimPartition env partID claims).heartbeatSent = false) ∧
    (¬ 0 < env.lastHeartbeatSeen → env.offsets ≠ none → env.claimWon = true →
      (tryClaimPartition env partID claims).heartbeatSent = true) ∧
    ((tryClaimPartition env partID claims).result = true →
      ¬ 0 < env.lastHeartbeatSeen ∧ env.offsets ≠ none ∧ env.claimWon = true ∧
      env.heartbeatOk = true ∧ env.consumerCreateOk = true) ∧
    ((tryClaimPartition env partID claims).claims ≠ claims →
      (tryClaimPartition env partID claims).result = true) := by
  by_cases h1 : 0 < env.lastHeartbeatSeen
  · simp [tryClaimPartition, h1]
  · cases ho : env.offsets with
    | none => simp [tryClaimPartition, h1, ho]
    | some triple =>
      obtain ⟨oEarly, rest2⟩ := triple
      obtain ⟨oLate, oCur⟩ := rest2
      cases h2 : env.claimWon with
      | false => simp [tryClaimPartition, h1, ho, h2]
      | true =>
        cases h3 : env.heartbeatOk with
        | false => simp [tryClaimPartition, h1, ho, h2, h3]
        | true =>
          cases h4 : env.consumerCreateOk with
          | false => simp [tryClaimPartition, h1, ho, h2, h3, h4]
          | true =>
            cases claims with
            | none => simp [tryClaimPartition, h1, ho, h2, h3, h4]
            | some m => simp [tryClaimPartition, h1, ho, h2, h3, h4]

/-- Environment of the lost-race scenario: nobody has heartbeated, offsets
are available, but ClaimPartition returns false. -/
def envLost : TryClaimEnv :=
  { lastHeartbeatSeen := 0, offsets := some (0, 20, 5), claimWon := false,
    heartbeatOk := true, consumerCreateOk := true, now := 50 }

/-- Environment where the race is won but the initial heartbeat fails. -/
def envHeartbeatFails : TryClaimEnv :=
  { lastHeartbeatSeen := 0, offsets := some (0, 20, 5), claimWon := true,
    heartbeatOk := false, consumerCreateOk := true, now := 50 }

/-- Witness for C7 amended: at the lost-race scenario the partition is not
claimed, the mapping is unchanged and no heartbeat is sent; at the
failing-initial-heartbeat scenario a heartbeat was invoked all the same. -/
theorem tryClaimPartition_spec_witness :
    ((tryClaimPartition envLost 2 (some [])).result = false ∧
      (tryClaimPartition envLost 2 (some [])).claims = some []) ∧
    (tryClaimPartition envLost 2 (some [])).heartbeatSent = false ∧
    (tryClaimPartition envHeartbeatFails 2 (some [])).heartbeatSent = true :=
  ⟨(tryClaimPartition_spec envLost 2 (some [])).1 (by decide),
    (tryClaimPartition_spec envLost 2 (some [])).2.1 (by decide),
    (tryClaimPartition_spec envHeartbeatFails 2 (some [])).2.2.1 (by decide)
      (by decide) (by decide)⟩

/-! ## Claim sweep (claimPartitions of consumer.go) -/

/-- The two consumer behavior modes. -/
inductive ConsumerBehavior where
  | aggressive
  | balanced
deriving DecidableEq

/-- The claim sweep of consumer.go: iterate a counter from 0 to
partitions - 1 visiting partition (counter + offset) mod partitions; skip
partitions already in the mapping; otherwise call tryClaimPartition
(modelled by the oracle tryOk, a success inserting the partition into the
mapping); in balanced mode stop after the first success, in aggressive
mode keep going. Returns the partitions attempted and the partitions newly
claimed, in visit order. -/
def claimPartitionsGo (partitions off : Nat) (b : ConsumerBehavior)
    (tryOk : Nat → Bool) : Nat → Nat → List Nat → List Nat × List Nat
  | _, 0, _ => ([], [])
  | i, Nat.succ n, claims =>
    let p := (i + off) % partitions
    if p ∈ claims then claimPartitionsGo partitions off b tryOk (i + 1) n claims
    else if tryOk p then
      match b with
      | ConsumerBehavior.balanced => ([p], [p])
      | ConsumerBehavior.aggressive =>
        (p :: (claimPartitionsGo partitions off b tryOk (i + 1) n (p :: claims)).1,
          p :: (claimPartitionsGo partitions off b tryOk (i + 1) n (p :: claims)).2)
    else
      (p :: (claimPartitionsGo partitions off b tryOk (i + 1) n claims).1,
        (claimPartitionsGo partitions off b tryOk (i + 1) n claims).2)

/-- One full sweep: all partitions, starting at the random offset. -/
def claimPartitions (partitions off : Nat) (b : ConsumerBehavior)
    (tryOk : Nat → Bool) (claims : List Nat) : List Nat × List Nat :=
  claimPartitionsGo partitions off b tryOk 0 partitions claims

theorem claimPartitionsGo_balanced_le_one (partitions off : Nat)
    (tryOk : Nat → Bool) :
    ∀ n i claims,
      (claimPartitionsGo partitions off ConsumerBehavior.balanced tryOk
        i n claims).2.length ≤ 1 := by
  intro n
  induction n with
  | zero => intro i claims; simp [claimPartitionsGo]
  | succ n ih =>
    intro i claims
    simp only [claimPartitionsGo]
    by_cases hp : (i + off) % partitions ∈ claims
    · rw [if_pos hp]
      exact ih (i + 1) claims
    · rw [if_neg hp]
      by_cases ht : tryOk ((i + off) % partitions) = true
      · rw [if_pos ht]
        simp
      · rw [if_neg ht]
        exact ih (i + 1) claims

/-- Distinct loop counters below partitions visit distinct partitions. -/
theorem residue_inj (partitions i j off : Nat) (hi : i < partitions)
    (hj : j < partitions)
    (h : (i + off) % partitions = (j + off) % partitions) : i = j := by
  have hm : Nat.ModEq partitions (i + off) (j + off) := h
  have hm2 : Nat.ModEq partitions i j := Nat.ModEq.add_right_cancel' off hm
  calc i = i % partitions := (Nat.mod_eq_of_lt hi).symm
    _ = j % partitions := hm2
    _ = j := Nat.mod_eq_of_lt hj

theorem claimPartitionsGo_aggressive_attempts (partitions off : Nat)
    (tryOk : Nat → Bool) (p : Nat) :
    ∀ n i claims j, i + n = partitions → i ≤ j → j < partitions →
      (j + off) % partitions = p → p ∉ claims →
      p ∈ (claimPartitionsGo partitions off ConsumerBehavior.aggressive tryOk
        i n claims).1 := by
  intro n
  induction n with
  | zero =>
    intro i claims j hin hij hj hres hpc
    omega
  | succ n ih =>
    intro i claims j hin hij hj hres hpc
    have hi : i < partitions := by omega
    by_cases hcur : i = j
    · subst hcur
      simp only [claimPartitionsGo, hres]
      rw [if_neg hpc]
      by_cases ht : tryOk p = true
      · rw [if_pos ht]
        simp
      · rw [if_neg ht]
        simp
    · have hne : (i + off) % partitions ≠ p := by
        intro he
        exact hcur (residue_inj partitions i j off hi hj (he.trans hres.symm))
      simp only [claimPartitionsGo]
      by_cases hmem : (i + off) % partitions ∈ claims
      · rw [if_pos hmem]
        exact ih (i + 1) claims j (by omega) (by omega) hj hres hpc
      · rw [if_neg hmem]
        by_cases ht : tryOk ((i + off) % partitions) = true
        · rw [if_pos ht]
          have hnotin : p ∉ ((i + off) % partitions :: claims) := by
            intro hmem2
            rcases List.mem_cons.mp hmem2 with h | h
            · exact hne h.symm
            · exact hpc h
          have hrec := ih (i + 1) ((i + off) % partitions :: claims) j
            (by omega) (by omega) hj hres hnotin
          simp only [List.mem_cons]
          exact Or.inr hrec
        · rw [if_neg ht]
          have hrec := ih (i + 1) claims j (by omega) (by omega) hj hres hpc
          simp only [List.mem_cons]
          exact Or.inr hrec

/-- Claim C9: in one sweep of claimPartitions, balanced mode claims at
most one new partition (the sweep stops at the first success), while
aggressive mode calls tryClaimPartition for every partition not already
present in the mapping. -/
theorem claimPartitions_spec (partitions off : Nat) (tryOk : Nat → Bool)
    (claims : List Nat) :
    (claimPartitions partitions off ConsumerBehavior.balanced tryOk
      claims).2.length ≤ 1 ∧
    (∀ p, p < partitions → p ∉ claims →
      p ∈ (claimPartitions partitions off ConsumerBehavior.aggressive tryOk
        claims).1) := by
  constructor
  · exact claimPartitionsGo_balanced_le_one partitions off tryOk partitions 0 claims
  · intro p hp hpc
    have hpos : 0 < partitions := by omega
    set r := off % partitions with hr
    have hrlt : r < partitions := Nat.mod_lt off hpos
    have hj0lt : (p + partitions - r) % partitions < partitions :=
      Nat.mod_lt _ hpos
    have hres : ((p + partitions - r) % partitions + off) % partitions = p := by
      rw [Nat.mod_add_mod, Nat.add_mod, ← hr, Nat.mod_add_mod,
        Nat.sub_add_cancel (by omega : r ≤ p + partitions), Nat.add_mod_right]
      exact Nat.mod_eq_of_lt hp
    exact claimPartitionsGo_aggressive_attempts partitions off tryOk p partitions 0
      claims ((p + partitions - r) % partitions) (by omega) (by omega) hj0lt hres hpc

/-- Witness for C9: a four-partition topic with an always-winning oracle;
balanced claims at most one, aggressive attempts partition 2. -/
theorem claimPartitions_spec_witness :
    (claimPartitions 4 1 ConsumerBehavior.balanced (fun _ => true) []).2.length ≤ 1 ∧
    2 ∈ (claimPartitions 4 1 ConsumerBehavior.aggressive (fun _ => true) []).1 :=
  ⟨(claimPartitions_spec 4 1 (fun _ => true) []).1,
    (claimPartitions_spec 4 1 (fun _ => true) []).2 2 (by decide) (by decide)⟩

/-! ## Consume multiplexing (Consume of consumer.go) -/

/-- One scan of Consume over the claims mapping: for each claim in
iteration order, a non-blocking channel receive; a nonempty channel has
its head dequeued into the single msg variable, overwriting whatever an
earlier claim delivered. Returns the claims with the channels as the scan
leaves them, and the last message dequeued. -/
def consumeScan : List ConsumerClaimRec → Option Msg →
    List ConsumerClaimRec × Option Msg
  | [], acc => ([], acc)
  | c :: rest, acc =>
    match c.messages with
    | [] => (c :: (consumeScan rest acc).1, (consumeScan rest acc).2)
    | m :: ms =>
      ({ c with messages := ms } :: (consumeScan rest (some m)).1,
        (consumeScan rest (some m)).2)

/-- After the scan, Consume looks the message partition up in the mapping;
if present and still claimed, it advances offsetCurrent and returns the
payload; otherwise it drops the message and rescans. -/
def consumeDeliver (claims : List ConsumerClaimRec) (m : Msg) : Option Int :=
  match claims.find? (fun c => c.partID == m.partition) with
  | none => none
  | some c => if c.claimed then some m.value else none

/-- A buffered message on partition 0. -/
def msgA : Msg := { partition := 0, offset := 3, value := 11 }

/-- A buffered message on partition 1. -/
def msgB : Msg := { partition := 1, offset := 9, value := 22 }

/-- Claim on partition 0 holding one buffered message. -/
def claimA : ConsumerClaimRec :=
  { sampleConsumerClaim with partID := 0, messages := [msgA] }

/-- Claim on partition 1 holding one buffered message. -/
def claimB : ConsumerClaimRec :=
  { sampleConsumerClaim with partID := 1, messages := [msgB] }

/-- Claim C10: in a state with two claims each holding one buffered
message, a single Consume scan dequeues from both channels but keeps only
the last message dequeued: both channels are empty afterwards, the scan
delivers the second message and its payload, and the first message is
neither delivered nor left in any channel, so it is lost. -/
theorem consume_discards_earlier_messages :
    consumeScan [claimA, claimB] none =
      ([{ claimA with messages := [] }, { claimB with messages := [] }],
        some msgB) ∧
    consumeDeliver (consumeScan [claimA, claimB] none).1 msgB = some 22 ∧
    (∀ c ∈ (consumeScan [claimA, claimB] none).1, msgA ∉ c.messages) ∧
    msgB ≠ msgA := by
  decide

end Marshal
